import Mathlib

/-!
Verification of the overtime-salary calculation engine
(`src/utils/SalaryCalculatorService.ts`).

Shallow embedding conventions:
* JavaScript numbers are modelled as exact rationals (`ℚ`); `Math.round`
  is `jsRound` (floor of `x + 1/2`, i.e. round-half-up toward `+∞`) and
  `Math.ceil` is `Int.ceil`.
* Strings are processed character-wise: `trimChars` models
  `String.prototype.trim` and `splitOnChar` models `split(',')`.
  `parseFloat` is modelled twice: `jsParseFloatExt` over the full
  JavaScript number domain `JsNum` (finite rationals, NaN, signed
  infinities, including the `Infinity` literal production), and its
  finite-valued fragment `jsParseFloat`, which feeds the rational
  pipeline; `parseHoursInputExt` mirrors the hour parser over the full
  domain and carries its acceptance behaviour.
* The narrative strings pushed by the calculator are reproduced from the
  source templates; `toFixedQ` models `Number.prototype.toFixed`, and
  `jsNumStr` abstracts the default JS number-to-string coercion (exact
  for integers, fractional rationals rendered as rationals, since JS
  shortest-round-trip float printing has no rational counterpart).
* Thrown exceptions are modelled with `Except String`.
-/

attribute [local semireducible] Rat.add Rat.mul Rat.sub Rat.inv Rat.ofScientific

/-- Model of `Math.round`: round half-up (toward positive infinity),
written with the executable `Rat.floor` so that concrete instances
evaluate; `jsRound_eq_floor` relates it to `Int.floor`. -/
def jsRound (x : ℚ) : ℤ := (x + 1 / 2).floor

/-- Model of `Math.ceil`, written as the negated executable floor of the
negation; `jsCeil_eq_ceil` relates it to `Int.ceil`. -/
def jsCeil (x : ℚ) : ℤ := -((-x).floor)

/-- Model of the recurring source pattern `Math.round(x * 100) / 100`:
rounding a pay amount to the cent. -/
def roundCent (x : ℚ) : ℚ := (jsRound (x * 100) : ℚ) / 100

/-- JavaScript whitespace recognised by `trim` (ASCII subset; the exotic
Unicode space characters never occur in the inputs considered here). -/
def isJsWhitespace (c : Char) : Bool :=
  c = ' ' || c = '\t' || c = '\n' || c = '\r' || c = '\x0b' || c = '\x0c'

/-- Model of `String.prototype.trim` on the character list. -/
def trimChars (cs : List Char) : List Char :=
  ((cs.dropWhile isJsWhitespace).reverse.dropWhile isJsWhitespace).reverse

/-- Model of `String.prototype.split(sep)` for a single-character
separator: `"".split(',') = [""]`, `"3,".split(',') = ["3", ""]`. -/
def splitOnChar (sep : Char) : List Char → List (List Char)
  | [] => [[]]
  | c :: cs =>
    match splitOnChar sep cs with
    | t :: ts => if c = sep then [] :: t :: ts else (c :: t) :: ts
    | [] => if c = sep then [[], []] else [[c]]

/-- Numeric value of a list of decimal digit characters. -/
def digitsVal (ds : List Char) : ℕ :=
  ds.foldl (fun a c => 10 * a + (c.toNat - 48)) 0

/-- Model of the optional `ExponentPart` of the ECMAScript
`StrDecimalLiteral` grammar: `e`/`E`, optional sign, decimal digits.
Returns `none` when no well-formed exponent starts here (in which case
`parseFloat` ignores the trailing characters). -/
def parseExponent (cs : List Char) : Option ℤ :=
  match cs with
  | 'e' :: rest =>
    match rest with
    | '+' :: rest2 =>
      let ds := rest2.takeWhile Char.isDigit
      if ds.isEmpty then none else some (digitsVal ds : ℤ)
    | '-' :: rest2 =>
      let ds := rest2.takeWhile Char.isDigit
      if ds.isEmpty then none else some (-(digitsVal ds : ℤ))
    | _ =>
      let ds := rest.takeWhile Char.isDigit
      if ds.isEmpty then none else some (digitsVal ds : ℤ)
  | 'E' :: rest =>
    match rest with
    | '+' :: rest2 =>
      let ds := rest2.takeWhile Char.isDigit
      if ds.isEmpty then none else some (digitsVal ds : ℤ)
    | '-' :: rest2 =>
      let ds := rest2.takeWhile Char.isDigit
      if ds.isEmpty then none else some (-(digitsVal ds : ℤ))
    | _ =>
      let ds := rest.takeWhile Char.isDigit
      if ds.isEmpty then none else some (digitsVal ds : ℤ)
  | _ => none

/-- Apply a trailing exponent part (if present) to an already-parsed
mantissa, as `parseFloat` does; trailing garbage is ignored. -/
def applyExp (base : ℚ) (cs : List Char) : ℚ :=
  match parseExponent cs with
  | some e => base * (10 : ℚ) ^ e
  | none => base

/-- Model of the unsigned part of the `parseFloat` literal grammar:
`DecimalDigits ["." DecimalDigits?] ExponentPart?` or
`"." DecimalDigits ExponentPart?`; the longest valid prefix is taken and
everything after it is ignored, `none` when no valid prefix exists. -/
def parseUnsigned (cs : List Char) : Option ℚ :=
  let intDs := cs.takeWhile Char.isDigit
  let rest := cs.dropWhile Char.isDigit
  if intDs.isEmpty then
    match rest with
    | c :: rest2 =>
      if c = '.' then
        let fracDs := rest2.takeWhile Char.isDigit
        if fracDs.isEmpty then none
        else some (applyExp ((digitsVal fracDs : ℚ) / (10 : ℚ) ^ fracDs.length)
          (rest2.dropWhile Char.isDigit))
      else none
    | [] => none
  else
    match rest with
    | c :: rest2 =>
      if c = '.' then
        let fracDs := rest2.takeWhile Char.isDigit
        some (applyExp ((digitsVal intDs : ℚ) + (digitsVal fracDs : ℚ) / (10 : ℚ) ^ fracDs.length)
          (rest2.dropWhile Char.isDigit))
      else some (applyExp (digitsVal intDs : ℚ) rest)
    | [] => some (applyExp (digitsVal intDs : ℚ) rest)

/-- Finite-valued fragment of ECMAScript `parseFloat` on an
already-trimmed character list: optional sign followed by the unsigned
finite-literal grammar; `none` models a `NaN` result.  The `Infinity`
literal, whose value is not a rational, is handled by the full-domain
model `jsParseFloatExt` below; this fragment is what the rational
pipeline (`parseHoursInput` and everything downstream) computes with. -/
def jsParseFloat (cs : List Char) : Option ℚ :=
  match cs with
  | [] => parseUnsigned []
  | c :: rest =>
    if c = '+' then parseUnsigned rest
    else if c = '-' then (parseUnsigned rest).map (fun q => -q)
    else parseUnsigned (c :: rest)

/-- Left-pad a string with zeros to the given width. -/
def padZeros (s : String) (w : ℕ) : String :=
  String.mk (List.replicate (w - s.length) '0') ++ s

/-- Model of `Number.prototype.toFixed(dp)`: round to `dp` decimal
places (ties toward `+∞`, as the ECMAScript spec picks the larger
candidate) and render with exactly `dp` fractional digits. -/
def toFixedQ (dp : ℕ) (x : ℚ) : String :=
  let n := jsRound (x * (10 : ℚ) ^ dp)
  let sign := if n < 0 then "-" else ""
  let m := n.natAbs
  if dp = 0 then sign ++ toString m
  else sign ++ toString (m / 10 ^ dp) ++ "." ++ padZeros (toString (m % 10 ^ dp)) dp

/-- Abstraction of the default JavaScript number-to-string coercion used
by the `${...}` template interpolations: exact for integers; fractional
rationals are rendered as rationals (the JS shortest-round-trip float
rendering is not representable in the rational embedding). -/
def jsNumStr (x : ℚ) : String := toString x

/-- Mirror of the `LaborStandardRates` interface. -/
structure LaborStandardRates where
  weekdayFirst2hr : ℚ
  weekdayNext2hr : ℚ
  weekdayEmergency : ℚ
  restDayFirst2hr : ℚ
  restDay2to8hr : ℚ
  restDayOver8hr : ℚ
  holidayRate : ℚ
  regularDayOffRate : ℚ
deriving DecidableEq

/-- Mirror of `DEFAULT_RATES`. -/
def DEFAULT_RATES : LaborStandardRates :=
  { weekdayFirst2hr := 4 / 3
    weekdayNext2hr := 5 / 3
    weekdayEmergency := 2
    restDayFirst2hr := 4 / 3
    restDay2to8hr := 5 / 3
    restDayOver8hr := 8 / 3
    holidayRate := 2
    regularDayOffRate := 2 }

/-- Mirror of the `DailyWorkDetail` interface. -/
structure DailyWorkDetail where
  day : ℕ
  hours : ℚ
  pay : ℚ
deriving DecidableEq

/-- Mirror of the `CalculationDetail` interface; the optional
`dailyBreakdown` field is `none` when the source leaves it `undefined`. -/
structure CalculationDetail where
  pay : ℚ
  details : List String
  dailyBreakdown : Option (List DailyWorkDetail)
deriving DecidableEq

/-- Mirror of the `ParsedHoursData` interface. -/
structure ParsedHoursData where
  total : ℚ
  detail : List ℚ
deriving DecidableEq

/-- Mirror of the `WorkDataInput` interface. -/
structure WorkDataInput where
  weekdayOvertime : String
  restDayWork : String
  holidayWork : String
  regularDayOffWork : String
  isEmergency : Bool
deriving DecidableEq

/-- Mirror of `calculateHourlyRate`: `salary / 240`, then `Math.ceil`
under ceiling mode or `Math.round(x*100)/100` under nearest-cent mode. -/
def calculateHourlyRate (salary : ℚ) (useCeiling : Bool) : ℚ :=
  let hourlyRate := salary / 240
  if useCeiling then (jsCeil hourlyRate : ℚ) else roundCent hourlyRate

/-- Mirror of `calculateDailyWage`: `salary / 30` under the same
rounding rule as `calculateHourlyRate`. -/
def calculateDailyWage (salary : ℚ) (useCeiling : Bool) : ℚ :=
  let dailyWage := salary / 30
  if useCeiling then (jsCeil dailyWage : ℚ) else roundCent dailyWage

/-- Mirror of `calculateWeekdayOvertime`: guard for non-positive hours,
flat emergency multiplier, otherwise the 2/4-hour tiered brackets;
`Math.round(totalPay * 100) / 100` is applied once to the summed pay. -/
def calculateWeekdayOvertime (rates : LaborStandardRates) (hours hourlyRate : ℚ)
    (isEmergency : Bool) : CalculationDetail :=
  if hours ≤ 0 then { pay := 0, details := ["無加班"], dailyBreakdown := none }
  else if isEmergency then
    let totalPay := hours * hourlyRate * rates.weekdayEmergency
    { pay := roundCent totalPay
      details := ["天災事變加班 " ++ jsNumStr hours ++ " 小時: " ++ jsNumStr hours ++ " × " ++
        jsNumStr hourlyRate ++ " × " ++ jsNumStr rates.weekdayEmergency ++ " = " ++
        toFixedQ 2 totalPay]
      dailyBreakdown := none }
  else if hours ≤ 2 then
    let totalPay := hours * hourlyRate * rates.weekdayFirst2hr
    { pay := roundCent totalPay
      details := ["前 " ++ jsNumStr hours ++ " 小時: " ++ jsNumStr hours ++ " × " ++
        jsNumStr hourlyRate ++ " × " ++ toFixedQ 3 rates.weekdayFirst2hr ++ " = " ++
        toFixedQ 2 totalPay]
      dailyBreakdown := none }
  else if hours ≤ 4 then
    let first2hrPay := 2 * hourlyRate * rates.weekdayFirst2hr
    let remainingHours := hours - 2
    let remainingPay := remainingHours * hourlyRate * rates.weekdayNext2hr
    let totalPay := first2hrPay + remainingPay
    { pay := roundCent totalPay
      details := ["前2小時: 2 × " ++ jsNumStr hourlyRate ++ " × " ++
          toFixedQ 3 rates.weekdayFirst2hr ++ " = " ++ toFixedQ 2 first2hrPay,
        "再延長 " ++ jsNumStr remainingHours ++ " 小時: " ++ jsNumStr remainingHours ++ " × " ++
          jsNumStr hourlyRate ++ " × " ++ toFixedQ 3 rates.weekdayNext2hr ++ " = " ++
          toFixedQ 2 remainingPay]
      dailyBreakdown := none }
  else
    let first2hrPay := 2 * hourlyRate * rates.weekdayFirst2hr
    let next2hrPay := 2 * hourlyRate * rates.weekdayNext2hr
    let over4hr := hours - 4
    let over4hrPay := over4hr * hourlyRate * rates.weekdayNext2hr
    let totalPay := first2hrPay + next2hrPay + over4hrPay
    { pay := roundCent totalPay
      details := ["前2小時: 2 × " ++ jsNumStr hourlyRate ++ " × " ++
          toFixedQ 3 rates.weekdayFirst2hr ++ " = " ++ toFixedQ 2 first2hrPay,
        "再延長2小時: 2 × " ++ jsNumStr hourlyRate ++ " × " ++
          toFixedQ 3 rates.weekdayNext2hr ++ " = " ++ toFixedQ 2 next2hrPay,
        "超過4小時部分 " ++ jsNumStr over4hr ++ " 小時: " ++ jsNumStr over4hr ++ " × " ++
          jsNumStr hourlyRate ++ " × " ++ toFixedQ 3 rates.weekdayNext2hr ++ " = " ++
          toFixedQ 2 over4hrPay]
      dailyBreakdown := none }

/-- Mirror of `calculateRestDayOvertime`: 2/8-hour tiered brackets with
one final cent rounding. -/
def calculateRestDayOvertime (rates : LaborStandardRates) (hours hourlyRate : ℚ) :
    CalculationDetail :=
  if hours ≤ 0 then { pay := 0, details := ["未出勤"], dailyBreakdown := none }
  else if hours ≤ 2 then
    let totalPay := hours * hourlyRate * rates.restDayFirst2hr
    { pay := roundCent totalPay
      details := ["前 " ++ jsNumStr hours ++ " 小時: " ++ jsNumStr hours ++ " × " ++
        jsNumStr hourlyRate ++ " × " ++ toFixedQ 3 rates.restDayFirst2hr ++ " = " ++
        toFixedQ 2 totalPay]
      dailyBreakdown := none }
  else if hours ≤ 8 then
    let first2hrPay := 2 * hourlyRate * rates.restDayFirst2hr
    let remainingHours := hours - 2
    let remainingPay := remainingHours * hourlyRate * rates.restDay2to8hr
    let totalPay := first2hrPay + remainingPay
    { pay := roundCent totalPay
      details := ["前2小時: 2 × " ++ jsNumStr hourlyRate ++ " × " ++
          toFixedQ 3 rates.restDayFirst2hr ++ " = " ++ toFixedQ 2 first2hrPay,
        "2-8小時 " ++ jsNumStr remainingHours ++ " 小時: " ++ jsNumStr remainingHours ++ " × " ++
          jsNumStr hourlyRate ++ " × " ++ toFixedQ 3 rates.restDay2to8hr ++ " = " ++
          toFixedQ 2 remainingPay]
      dailyBreakdown := none }
  else
    let first2hrPay := 2 * hourlyRate * rates.restDayFirst2hr
    let mid6hrPay := 6 * hourlyRate * rates.restDay2to8hr
    let over8hr := hours - 8
    let over8hrPay := over8hr * hourlyRate * rates.restDayOver8hr
    let totalPay := first2hrPay + mid6hrPay + over8hrPay
    { pay := roundCent totalPay
      details := ["前2小時: 2 × " ++ jsNumStr hourlyRate ++ " × " ++
          toFixedQ 3 rates.restDayFirst2hr ++ " = " ++ toFixedQ 2 first2hrPay,
        "2-8小時: 6 × " ++ jsNumStr hourlyRate ++ " × " ++
          toFixedQ 3 rates.restDay2to8hr ++ " = " ++ toFixedQ 2 mid6hrPay,
        "超過8小時 " ++ jsNumStr over8hr ++ " 小時: " ++ jsNumStr over8hr ++ " × " ++
          jsNumStr hourlyRate ++ " × " ++ toFixedQ 3 rates.restDayOver8hr ++ " = " ++
          toFixedQ 2 over8hrPay]
      dailyBreakdown := none }

/-- Mirror of the `'國定假日' | '例假'` union used by
`calculateHolidayPay`. -/
inductive HolidayType where
  | statutoryHoliday
  | regularDayOff
deriving DecidableEq

/-- Chinese label of each holiday type, as interpolated into the
narrative line. -/
def holidayTypeStr : HolidayType → String
  | .statutoryHoliday => "國定假日"
  | .regularDayOff => "例假"

/-- Mirror of `calculateHolidayPay`: flat multiplier, final cent
rounding. -/
def calculateHolidayPay (rates : LaborStandardRates) (hours hourlyRate : ℚ)
    (holidayType : HolidayType) : CalculationDetail :=
  if hours ≤ 0 then { pay := 0, details := ["未出勤"], dailyBreakdown := none }
  else
    let rate := match holidayType with
      | .regularDayOff => rates.regularDayOffRate
      | .statutoryHoliday => rates.holidayRate
    let totalPay := hours * hourlyRate * rate
    { pay := roundCent totalPay
      details := [holidayTypeStr holidayType ++ "出勤 " ++ jsNumStr hours ++ " 小時: " ++
        jsNumStr hours ++ " × " ++ jsNumStr hourlyRate ++ " × " ++ jsNumStr rate ++ " = " ++
        toFixedQ 2 totalPay]
      dailyBreakdown := none }

instance exceptDecEq {α β : Type} [DecidableEq α] [DecidableEq β] :
    DecidableEq (Except α β) := fun x y =>
  match x, y with
  | .error a, .error b =>
    if h : a = b then isTrue (by rw [h]) else isFalse (by simp [h])
  | .ok a, .ok b =>
    if h : a = b then isTrue (by rw [h]) else isFalse (by simp [h])
  | .error a, .ok b => isFalse (by simp)
  | .ok a, .error b => isFalse (by simp)

/-- Mirror of the token loop inside `parseHoursInput`'s comma branch:
`input.split(',').map(x => { parsed = parseFloat(x.trim()); if isNaN
throw; return parsed })`.  The thrown error (naming the first offending
trimmed token) aborts the whole map. -/
def parseTokens : List (List Char) → Except String (List ℚ)
  | [] => .ok []
  | x :: xs =>
    match jsParseFloat (trimChars x) with
    | none => .error ("無效的時數: " ++ String.mk (trimChars x))
    | some v =>
      match parseTokens xs with
      | .error e => .error e
      | .ok vs => .ok (v :: vs)

/-- Mirror of `parseHoursInput`: `null` (here `Option.none`) for
empty/whitespace-only input, comma-split token parsing when the input
contains a comma, single-token parsing otherwise; `total` is the
reduce-sum of the parsed list.  This is the rational pipeline model,
restricted to inputs whose tokens are finite: on an `Infinity` token the
real program succeeds with a non-finite value, a case carried by the
full-domain mirror `parseHoursInputExt`. -/
def parseHoursInput (input : String) : Except String (Option ParsedHoursData) :=
  if trimChars input.toList = [] then .ok none
  else if input.toList.contains ',' then
    match parseTokens (splitOnChar ',' input.toList) with
    | .error e => .error e
    | .ok hoursList => .ok (some { total := hoursList.sum, detail := hoursList })
  else
    match jsParseFloat (trimChars input.toList) with
    | none => .error ("無效的時數: " ++ String.mk (trimChars input.toList))
    | some hours => .ok (some { total := hours, detail := [hours] })

/-- Mirror of `processDailyCalculation`: in multi-day mode each positive
day is priced by the supplied bracket function (non-positive days become
zero rows), rows with non-positive hours are filtered out of the
breakdown, and the category pay is the plain sum of the per-day pays;
in single-day mode the bracket function's result is returned unchanged. -/
def processDailyCalculation (parsedData : ParsedHoursData) (hourlyRate : ℚ)
    (calculationMethod : ℚ → ℚ → CalculationDetail) : CalculationDetail :=
  if parsedData.detail.length > 1 then
    let dailyResults : List DailyWorkDetail :=
      (parsedData.detail.enum.map (fun p =>
        if p.2 > 0 then
          { day := p.1 + 1, hours := p.2, pay := (calculationMethod p.2 hourlyRate).pay }
        else
          { day := p.1 + 1, hours := 0, pay := 0 })).filter (fun item => item.hours > 0)
    { pay := (dailyResults.map (fun d => d.pay)).sum
      details := ["共" ++ toString parsedData.detail.length ++ "天，每天分別計算"]
      dailyBreakdown := some dailyResults }
  else
    calculationMethod parsedData.total hourlyRate

/-- Mirror of the `ComprehensiveResult` interface; the four optional
fields stand for the Chinese-keyed `calculations` map entries
平日加班, 休息日工作, 假日出勤, 例假出勤 in that order. -/
structure ComprehensiveResult where
  hourlyRate : ℚ
  dailyWage : ℚ
  weekdayOvertimeCalc : Option CalculationDetail
  restDayWorkCalc : Option CalculationDetail
  holidayWorkCalc : Option CalculationDetail
  regularDayOffCalc : Option CalculationDetail
  totalPay : ℚ
deriving DecidableEq

/-- Pay contributed by an optional category: `0` when the category is
absent, mirroring that `calculateComprehensive` only adds `pay` for
categories whose input was non-empty. -/
def payOf (o : Option CalculationDetail) : ℚ :=
  match o with
  | some c => c.pay
  | none => 0

/-- Usage examples appended by the `catch` block of
`calculateComprehensive` to any re-thrown error message. -/
def calcErrorSuffix : String :=
  "\n\n請確認輸入格式：\n• 單一時數: 3\n• 多天時數: 9,9,9,9"

/-- Message of the invalid-salary guard of `calculateComprehensive`. -/
def invalidSalaryMsg : String := "請輸入有效的月薪"

/-- Mirror of one category block of `calculateComprehensive`: skip when
the trimmed raw string is empty, otherwise parse and, when a parsed
value is produced, aggregate it via `processDailyCalculation`. -/
def processCategory (raw : String) (hourlyRate : ℚ)
    (calculationMethod : ℚ → ℚ → CalculationDetail) :
    Except String (Option CalculationDetail) :=
  if trimChars raw.toList = [] then .ok none
  else
    match parseHoursInput raw with
    | .error e => .error e
    | .ok none => .ok none
    | .ok (some parsed) => .ok (some (processDailyCalculation parsed hourlyRate calculationMethod))

/-- Parsing outcome a category block is gated on: `ok none` when the
trimmed raw string is empty, otherwise the parser's verdict.  Factoring
of `processCategory` used to show that which category entries are
present, and whether the call errors, is independent of the bracket
function supplied. -/
def categoryParse (raw : String) : Except String (Option ParsedHoursData) :=
  if trimChars raw.toList = [] then .ok none else parseHoursInput raw

/-- Mirror of `calculateComprehensive`: salary guard, wage-base
derivation, the four category blocks inside one `try` (any thrown parse
error is re-signalled with `calcErrorSuffix` appended), and the final
cent-rounded total.  The source's `!monthlySalary || monthlySalary <= 0`
guard reduces to `monthlySalary ≤ 0` on finite rationals; its behaviour
on the non-finite doubles `NaN`/`±Infinity` is modelled separately by
`salaryGuardRejects`. -/
def calculateComprehensive (rates : LaborStandardRates) (monthlySalary : ℚ)
    (workData : WorkDataInput) (useCeilingCalculation : Bool) :
    Except String ComprehensiveResult :=
  if monthlySalary ≤ 0 then .error invalidSalaryMsg
  else
    let hourlyRate := calculateHourlyRate monthlySalary useCeilingCalculation
    let dailyWage := calculateDailyWage monthlySalary useCeilingCalculation
    match processCategory workData.weekdayOvertime hourlyRate
      (fun h r => calculateWeekdayOvertime rates h r workData.isEmergency) with
    | .error e => .error (e ++ calcErrorSuffix)
    | .ok w =>
      match processCategory workData.restDayWork hourlyRate
        (fun h r => calculateRestDayOvertime rates h r) with
      | .error e => .error (e ++ calcErrorSuffix)
      | .ok rst =>
        match processCategory workData.holidayWork hourlyRate
          (fun h r => calculateHolidayPay rates h r HolidayType.statutoryHoliday) with
        | .error e => .error (e ++ calcErrorSuffix)
        | .ok hol =>
          match processCategory workData.regularDayOffWork hourlyRate
            (fun h r => calculateHolidayPay rates h r HolidayType.regularDayOff) with
          | .error e => .error (e ++ calcErrorSuffix)
          | .ok reg =>
            .ok { hourlyRate := hourlyRate
                  dailyWage := dailyWage
                  weekdayOvertimeCalc := w
                  restDayWorkCalc := rst
                  holidayWorkCalc := hol
                  regularDayOffCalc := reg
                  totalPay := roundCent (payOf w + payOf rst + payOf hol + payOf reg) }

/-- JavaScript double as seen by the salary guard: a finite value, `NaN`
or a signed infinity.  Only the guard of `calculateComprehensive` needs
the non-finite values; all arithmetic stays on finite rationals. -/
inductive JsNum where
  | num (q : ℚ)
  | nan
  | posInf
  | negInf
deriving DecidableEq

/-- JavaScript falsiness of a number, as tested by `!monthlySalary`:
`0` and `NaN` are falsy, every other number (infinities included) is
truthy. -/
def jsFalsy : JsNum → Bool
  | .num q => q = 0
  | .nan => true
  | .posInf => false
  | .negInf => false

/-- JavaScript comparison `monthlySalary <= 0`: false for `NaN` and
`+Infinity`, true for `-Infinity`. -/
def jsLeZero : JsNum → Bool
  | .num q => q ≤ 0
  | .nan => false
  | .posInf => false
  | .negInf => true

/-- Mirror of the guard `!monthlySalary || monthlySalary <= 0` of
`calculateComprehensive` over the full JavaScript number domain. -/
def salaryGuardRejects (s : JsNum) : Bool := jsFalsy s || jsLeZero s

/-- JavaScript unary negation on the full number domain. -/
def jsNegate : JsNum → JsNum
  | .num q => .num (-q)
  | .nan => .nan
  | .posInf => .negInf
  | .negInf => .posInf

/-- JavaScript addition on the full number domain (NaN propagates,
`+∞ + −∞ = NaN`, an infinity absorbs finite summands; the signed zero of
IEEE doubles is not distinguished, which no comparison here observes). -/
def jsAdd : JsNum → JsNum → JsNum
  | .nan, _ => .nan
  | _, .nan => .nan
  | .posInf, .negInf => .nan
  | .negInf, .posInf => .nan
  | .posInf, _ => .posInf
  | _, .posInf => .posInf
  | .negInf, _ => .negInf
  | _, .negInf => .negInf
  | .num a, .num b => .num (a + b)

/-- First eight characters spell the ECMAScript `Infinity` literal of
`StrUnsignedDecimalLiteral` (`parseFloat` reads it as the longest valid
numeric start and ignores whatever follows). -/
def isInfinityLit (cs : List Char) : Bool :=
  decide (cs.take 8 = ['I', 'n', 'f', 'i', 'n', 'i', 't', 'y'])

/-- Unsigned part of the full `parseFloat` grammar: the `Infinity`
literal production on top of the finite-literal `parseUnsigned`. -/
def parseUnsignedExt (cs : List Char) : Option JsNum :=
  if isInfinityLit cs then some .posInf
  else (parseUnsigned cs).map (fun q => JsNum.num q)

/-- Model of ECMAScript `parseFloat` over the full JavaScript number
domain: optional sign, then either the `Infinity` literal or a finite
decimal literal; `.nan` is the NaN result on everything else.
`jsParseFloat` is the finite-valued fragment of this function used by
the rational pipeline model. -/
def jsParseFloatExt (cs : List Char) : JsNum :=
  match cs with
  | [] => .nan
  | c :: rest =>
    if c = '+' then
      match parseUnsignedExt rest with
      | some v => v
      | none => .nan
    else if c = '-' then
      match parseUnsignedExt rest with
      | some v => jsNegate v
      | none => .nan
    else
      match parseUnsignedExt (c :: rest) with
      | some v => v
      | none => .nan

/-- Token shape accepted by `parseFloat`: an optional sign followed by
the `Infinity` literal (the acceptance mode that lies outside the
finite-literal grammar of `jsParseFloat`). -/
def signedInfinityLit (cs : List Char) : Bool :=
  match cs with
  | [] => false
  | c :: rest =>
    if c = '+' then isInfinityLit rest
    else if c = '-' then isInfinityLit rest
    else isInfinityLit (c :: rest)

/-- Mirror of `ParsedHoursData` over the full JavaScript number domain. -/
structure ParsedHoursDataExt where
  total : JsNum
  detail : List JsNum
deriving DecidableEq

/-- Mirror of the token loop inside `parseHoursInput`'s comma branch
over the full number domain: a NaN token throws, any other `parseFloat`
result (finite or infinite) is kept. -/
def parseTokensExt : List (List Char) → Except String (List JsNum)
  | [] => .ok []
  | x :: xs =>
    if jsParseFloatExt (trimChars x) = .nan then
      .error ("無效的時數: " ++ String.mk (trimChars x))
    else
      match parseTokensExt xs with
      | .error e => .error e
      | .ok vs => .ok (jsParseFloatExt (trimChars x) :: vs)

/-- Mirror of `parseHoursInput` over the full JavaScript number domain:
identical trim/comma/split/parse structure, with `jsParseFloatExt` as
the token parser and `jsAdd` as the reduce-sum.  `parseHoursInput` is
its restriction to inputs whose tokens are finite; this full model
carries the acceptance behaviour, including `Infinity` tokens. -/
def parseHoursInputExt (input : String) : Except String (Option ParsedHoursDataExt) :=
  if trimChars input.toList = [] then .ok none
  else if input.toList.contains ',' then
    match parseTokensExt (splitOnChar ',' input.toList) with
    | .error e => .error e
    | .ok hoursList =>
      .ok (some { total := hoursList.foldl jsAdd (.num 0), detail := hoursList })
  else
    if jsParseFloatExt (trimChars input.toList) = .nan then
      .error ("無效的時數: " ++ String.mk (trimChars input.toList))
    else
      .ok (some { total := jsParseFloatExt (trimChars input.toList)
                  detail := [jsParseFloatExt (trimChars input.toList)] })

/-- View of a `ComprehensiveResult` without its weekday-overtime entry
and total: wage bases plus the rest-day, holiday and regular-day-off
details. -/
def nonWeekdayView (r : ComprehensiveResult) :
    ℚ × ℚ × Option CalculationDetail × Option CalculationDetail × Option CalculationDetail :=
  (r.hourlyRate, r.dailyWage, r.restDayWorkCalc, r.holidayWorkCalc, r.regularDayOffCalc)

/-- Modelled from the spec: the §6 hour-string token grammar
`digits ["." digits]` (this is the spec's stated contract, to be
compared with the implementation's `parseFloat`-based acceptance). -/
def specHourToken (cs : List Char) : Bool :=
  match cs.dropWhile Char.isDigit with
  | [] => !(cs.takeWhile Char.isDigit).isEmpty
  | c :: fs =>
    c = '.' && !(cs.takeWhile Char.isDigit).isEmpty && !fs.isEmpty && fs.all Char.isDigit

/-- Modelled from the spec: the full §6 hour-string grammar
`digits["."digits] ("," digits["."digits])*` with surrounding
whitespace allowed around each token. -/
def specHourString (s : String) : Bool :=
  (splitOnChar ',' s.toList).all (fun tok => specHourToken (trimChars tok))

/-- Token list the parser effectively examines: the comma-split pieces
when the input contains a comma, otherwise the whole input. -/
def hourTokens (s : String) : List (List Char) :=
  if s.toList.contains ',' then splitOnChar ',' s.toList else [s.toList]


/-! ## Bridging lemmas for the rounding primitives -/

theorem ratFloor_eq_intFloor (x : ℚ) : x.floor = ⌊x⌋ :=
  (Rat.floor_def' x).trans Rat.floor_def.symm

theorem jsRound_eq_floor (x : ℚ) : jsRound x = ⌊x + 1 / 2⌋ :=
  ratFloor_eq_intFloor _

theorem jsCeil_eq_ceil (x : ℚ) : jsCeil x = ⌈x⌉ := by
  unfold jsCeil
  rw [ratFloor_eq_intFloor, Int.floor_neg, neg_neg]

/-! ## C1 -/

/-- C1: for every hours > 0 and every hourly rate, non-emergency weekday
overtime pay is the cent-rounding of the tiered formula (h ≤ 2 at the
first-2hr multiplier; 2 < h ≤ 4 adds (h−2) at the next-2hr multiplier;
h > 4 continues beyond the fourth hour at the next-2hr multiplier), and
emergency weekday overtime pay is the cent-rounding of the unbracketed
hours × rate × weekdayEmergency; in both cases rounding happens once, on
the final summed pay. -/
theorem weekdayOvertime_tiered_spec (rates : LaborStandardRates) (h rate : ℚ)
    (hpos : 0 < h) :
    (calculateWeekdayOvertime rates h rate false).pay =
      roundCent (if h ≤ 2 then h * rate * rates.weekdayFirst2hr
        else if h ≤ 4 then
          2 * rate * rates.weekdayFirst2hr + (h - 2) * rate * rates.weekdayNext2hr
        else
          2 * rate * rates.weekdayFirst2hr + 2 * rate * rates.weekdayNext2hr +
            (h - 4) * rate * rates.weekdayNext2hr) ∧
    (calculateWeekdayOvertime rates h rate true).pay =
      roundCent (h * rate * rates.weekdayEmergency) := by
  have hn : ¬h ≤ 0 := not_le.mpr hpos
  refine ⟨?_, ?_⟩
  · by_cases h2 : h ≤ 2
    · simp [calculateWeekdayOvertime, hn, h2]
    · by_cases h4 : h ≤ 4
      · simp [calculateWeekdayOvertime, hn, h2, h4]
      · simp [calculateWeekdayOvertime, hn, h2, h4]
  · simp [calculateWeekdayOvertime, hn]

theorem weekdayOvertime_tiered_spec_witness :
    (0 : ℚ) < 3 ∧
    (calculateWeekdayOvertime DEFAULT_RATES 3 100 false).pay =
      roundCent (if (3 : ℚ) ≤ 2 then 3 * 100 * DEFAULT_RATES.weekdayFirst2hr
        else if (3 : ℚ) ≤ 4 then
          2 * 100 * DEFAULT_RATES.weekdayFirst2hr + (3 - 2) * 100 * DEFAULT_RATES.weekdayNext2hr
        else
          2 * 100 * DEFAULT_RATES.weekdayFirst2hr + 2 * 100 * DEFAULT_RATES.weekdayNext2hr +
            (3 - 4) * 100 * DEFAULT_RATES.weekdayNext2hr) :=
  ⟨by decide, (weekdayOvertime_tiered_spec DEFAULT_RATES 3 100 (by decide)).1⟩

/-! ## C3 -/

/-- C3: for every hours > 0 and every hourly rate, rest-day overtime pay
is the cent-rounding of the 2/8-hour tiered formula, and with the
default rates the 9-hour, rate-100 instance pays 1533.33. -/
theorem restDayOvertime_tiered_spec (rates : LaborStandardRates) (h rate : ℚ)
    (hpos : 0 < h) :
    (calculateRestDayOvertime rates h rate).pay =
      roundCent (if h ≤ 2 then h * rate * rates.restDayFirst2hr
        else if h ≤ 8 then
          2 * rate * rates.restDayFirst2hr + (h - 2) * rate * rates.restDay2to8hr
        else
          2 * rate * rates.restDayFirst2hr + 6 * rate * rates.restDay2to8hr +
            (h - 8) * rate * rates.restDayOver8hr) ∧
    (calculateRestDayOvertime DEFAULT_RATES 9 100).pay = 1533.33 := by
  have hn : ¬h ≤ 0 := not_le.mpr hpos
  refine ⟨?_, by decide⟩
  by_cases h2 : h ≤ 2
  · simp [calculateRestDayOvertime, hn, h2]
  · by_cases h8 : h ≤ 8
    · simp [calculateRestDayOvertime, hn, h2, h8]
    · simp [calculateRestDayOvertime, hn, h2, h8]

theorem restDayOvertime_tiered_spec_witness :
    (0 : ℚ) < 9 ∧
    (calculateRestDayOvertime DEFAULT_RATES 9 100).pay =
      roundCent (if (9 : ℚ) ≤ 2 then 9 * 100 * DEFAULT_RATES.restDayFirst2hr
        else if (9 : ℚ) ≤ 8 then
          2 * 100 * DEFAULT_RATES.restDayFirst2hr + (9 - 2) * 100 * DEFAULT_RATES.restDay2to8hr
        else
          2 * 100 * DEFAULT_RATES.restDayFirst2hr + 6 * 100 * DEFAULT_RATES.restDay2to8hr +
            (9 - 8) * 100 * DEFAULT_RATES.restDayOver8hr) :=
  ⟨by decide, (restDayOvertime_tiered_spec DEFAULT_RATES 9 100 (by decide)).1⟩

/-! ## C9 (corrected: the spec's quoted cent value is a slip; the
formula it quotes evaluates to 433.33, which is what the code pays) -/

/-- C9 counterexample: the claim's formula 2×100×(4/3) + 1×100×(5/3)
does not round to 266.67, and the code does not pay 266.67 on the
claim's input (3 hours, rate 100, non-emergency). -/
theorem weekdayOvertime_3h_not_26667 :
    roundCent (2 * 100 * (4 / 3) + 1 * 100 * (5 / 3)) ≠ (266.67 : ℚ) ∧
    (calculateWeekdayOvertime DEFAULT_RATES 3 100 false).pay ≠ (266.67 : ℚ) := by
  refine ⟨by decide, by decide⟩

/-- C9 (amended): with the default rate table,
weekdayOvertime(3, 100, false).pay equals the cent-rounding of
2×100×(4/3) + 1×100×(5/3), which is 433.33. -/
theorem weekdayOvertime_3h_pay :
    (calculateWeekdayOvertime DEFAULT_RATES 3 100 false).pay =
      roundCent (2 * 100 * (4 / 3) + 1 * 100 * (5 / 3)) ∧
    (calculateWeekdayOvertime DEFAULT_RATES 3 100 false).pay = 433.33 := by
  refine ⟨by decide, by decide⟩

/-! ## C8 -/

/-- C8: for every positive salary, the hourly rate is salary / 240
rounded up to a whole unit under ceiling mode and cent-rounded under
nearest-cent mode, the daily wage is salary / 30 under the same rule,
and the quoted instances 7200 and 7250 evaluate as stated. -/
theorem wageBase_spec (salary : ℚ) (hs : 0 < salary) :
    calculateHourlyRate salary true = (⌈salary / 240⌉ : ℚ) ∧
    calculateHourlyRate salary false = roundCent (salary / 240) ∧
    calculateDailyWage salary true = (⌈salary / 30⌉ : ℚ) ∧
    calculateDailyWage salary false = roundCent (salary / 30) ∧
    calculateHourlyRate 7200 true = 30 ∧
    calculateHourlyRate 7200 false = 30 ∧
    calculateHourlyRate 7250 true = 31 ∧
    calculateDailyWage 7200 true = 240 := by
  refine ⟨?_, rfl, ?_, rfl, by decide, by decide, by decide, by decide⟩
  · simp [calculateHourlyRate, jsCeil_eq_ceil]
  · simp [calculateDailyWage, jsCeil_eq_ceil]

theorem wageBase_spec_witness :
    (0 : ℚ) < 7200 ∧ calculateHourlyRate 7200 true = (⌈(7200 : ℚ) / 240⌉ : ℚ) :=
  ⟨by decide, (wageBase_spec 7200 (by decide)).1⟩

/-! ## C5 (corrected: the JS guard `!salary || salary <= 0` rejects 0,
NaN, negatives and −∞, but lets the non-finite value +∞ through) -/

/-- C5 counterexample: `+Infinity` is non-finite, yet the salary guard
of `calculateComprehensive` does not reject it, so the call does not
fail with the invalid-salary error there. -/
theorem salaryGuard_posInf_passes : salaryGuardRejects JsNum.posInf = false := by decide

/-- C5 (amended): for every salary ≤ 0 the comprehensive call fails with
the invalid-salary error before any parsing or bracket computation,
regardless of every other input; over the full JS number domain the
guard also rejects NaN and −∞ (but not +∞). -/
theorem invalidSalary_guard_first (rates : LaborStandardRates) (salary : ℚ)
    (wd : WorkDataInput) (u : Bool) (hs : salary ≤ 0) :
    calculateComprehensive rates salary wd u = .error invalidSalaryMsg ∧
    salaryGuardRejects (JsNum.num salary) = true ∧
    salaryGuardRejects JsNum.nan = true ∧
    salaryGuardRejects JsNum.negInf = true := by
  refine ⟨?_, ?_, rfl, rfl⟩
  · unfold calculateComprehensive
    rw [if_pos hs]
  · simp [salaryGuardRejects, jsFalsy, jsLeZero, hs]

theorem invalidSalary_guard_first_witness :
    (0 : ℚ) ≤ 0 ∧
    calculateComprehensive DEFAULT_RATES 0
      { weekdayOvertime := "x", restDayWork := "y", holidayWork := "", regularDayOffWork := "",
        isEmergency := false } true = .error invalidSalaryMsg :=
  ⟨le_refl 0,
   (invalidSalary_guard_first DEFAULT_RATES 0
     { weekdayOvertime := "x", restDayWork := "y", holidayWork := "", regularDayOffWork := "",
       isEmergency := false } true (le_refl 0)).1⟩

/-! ## Parser lemmas shared by C6 and C7 -/

theorem parseTokens_of_parses : ∀ (ts : List (List Char)) (vs : List ℚ),
    ts.map (fun x => jsParseFloat (trimChars x)) = vs.map some →
    parseTokens ts = .ok vs
  | [], [] => fun _ => rfl
  | [], v :: vs => by intro hmap; simp at hmap
  | t :: ts, [] => by intro hmap; simp at hmap
  | t :: ts, v :: vs => by
    intro hmap
    simp only [List.map_cons, List.cons.injEq] at hmap
    obtain ⟨h1, h2⟩ := hmap
    unfold parseTokens
    rw [h1, parseTokens_of_parses ts vs h2]

theorem parseTokens_error_names_token : ∀ (ts : List (List Char)) (e : String),
    parseTokens ts = .error e →
    ∃ x ∈ ts, jsParseFloat (trimChars x) = none ∧
      e = "無效的時數: " ++ String.mk (trimChars x)
  | [], e => by intro hp; exact Except.noConfusion hp
  | t :: ts, e => by
    intro hp
    unfold parseTokens at hp
    rcases hj : jsParseFloat (trimChars t) with _ | v
    · rw [hj] at hp
      refine ⟨t, List.mem_cons_self t ts, hj, ?_⟩
      exact (Except.error.injEq _ _).mp hp.symm
    · rw [hj] at hp
      rcases hr : parseTokens ts with e' | vs
      · rw [hr] at hp
        obtain ⟨x, hx, hnone, he⟩ := parseTokens_error_names_token ts e' hr
        have he' : e = e' := (Except.error.injEq _ _).mp hp.symm
        exact ⟨x, List.mem_cons_of_mem t hx, hnone, he' ▸ he⟩
      · rw [hr] at hp
        exact Except.noConfusion hp

theorem parseTokens_ok_of_all_parse : ∀ (ts : List (List Char)),
    (∀ x ∈ ts, jsParseFloat (trimChars x) ≠ none) → ∃ l, parseTokens ts = .ok l
  | [] => fun _ => ⟨[], rfl⟩
  | t :: ts => by
    intro hall
    rcases hj : jsParseFloat (trimChars t) with _ | v
    · exact absurd hj (hall t (List.mem_cons_self t ts))
    · obtain ⟨l, hl⟩ := parseTokens_ok_of_all_parse ts
        (fun x hx => hall x (List.mem_cons_of_mem t hx))
      exact ⟨v :: l, by unfold parseTokens; rw [hj, hl]⟩

theorem parseTokens_all_parse_of_ok : ∀ (ts : List (List Char)) (l : List ℚ),
    parseTokens ts = .ok l → ∀ x ∈ ts, jsParseFloat (trimChars x) ≠ none
  | [], l => by intro _ x hx; exact absurd hx (List.not_mem_nil x)
  | t :: ts, l => by
    intro hp x hx
    unfold parseTokens at hp
    rcases hj : jsParseFloat (trimChars t) with _ | v
    · rw [hj] at hp; exact Except.noConfusion hp
    · rw [hj] at hp
      rcases hr : parseTokens ts with e' | vs
      · rw [hr] at hp; exact Except.noConfusion hp
      · rcases List.mem_cons.mp hx with h | h
        · rw [h, hj]; exact Option.noConfusion
        · exact parseTokens_all_parse_of_ok ts vs hr x h

theorem parseHoursInput_ok_none {s : String} (hp : parseHoursInput s = .ok none) :
    trimChars s.toList = [] := by
  by_contra hne
  unfold parseHoursInput at hp
  rw [if_neg hne] at hp
  by_cases hc : s.toList.contains ',' = true
  · rw [if_pos hc] at hp
    rcases htk : parseTokens (splitOnChar ',' s.toList) with e | l
    · rw [htk] at hp; exact Except.noConfusion hp
    · rw [htk] at hp; simp at hp
  · rw [if_neg hc] at hp
    rcases hpf : jsParseFloat (trimChars s.toList) with _ | v
    · rw [hpf] at hp; exact Except.noConfusion hp
    · rw [hpf] at hp; simp at hp

/-! ## C6 -/

/-- C6: the hour parser returns null (`none`) exactly for
empty/whitespace-only input; comma-containing input is split on commas,
each token trimmed and parsed, a failing token aborting the call with an
invalid-hours error naming that trimmed token; on success the total is
the sum of the parsed tokens, the per-day list preserves input order,
and negative or zero values are accepted; `"3, a"` fails naming `"a"`
and `""` returns null. -/
theorem hoursParser_spec :
    (∀ s : String, trimChars s.toList = [] → parseHoursInput s = .ok none) ∧
    (∀ (s : String) (pd : ParsedHoursData),
      parseHoursInput s = .ok (some pd) → pd.total = pd.detail.sum) ∧
    (∀ (s : String) (vs : List ℚ), s.toList.contains ',' = true →
      trimChars s.toList ≠ [] →
      (splitOnChar ',' s.toList).map (fun x => jsParseFloat (trimChars x)) = vs.map some →
      parseHoursInput s = .ok (some { total := vs.sum, detail := vs })) ∧
    (∀ s e : String, s.toList.contains ',' = true → parseHoursInput s = .error e →
      ∃ x ∈ splitOnChar ',' s.toList, jsParseFloat (trimChars x) = none ∧
        e = "無效的時數: " ++ String.mk (trimChars x)) ∧
    parseHoursInput "3, a" = .error "無效的時數: a" ∧
    parseHoursInput "" = .ok none ∧
    parseHoursInput "-3, 0, 2.5" = .ok (some { total := -0.5, detail := [-3, 0, 2.5] }) := by
  refine ⟨?_, ?_, ?_, ?_, by decide, by decide, by decide⟩
  · intro s hs
    unfold parseHoursInput
    rw [if_pos hs]
  · intro s pd hp
    unfold parseHoursInput at hp
    by_cases ht : trimChars s.toList = []
    · rw [if_pos ht] at hp; simp at hp
    · rw [if_neg ht] at hp
      by_cases hc : s.toList.contains ',' = true
      · rw [if_pos hc] at hp
        rcases htk : parseTokens (splitOnChar ',' s.toList) with e | l
        · rw [htk] at hp; exact Except.noConfusion hp
        · rw [htk] at hp
          have hpd : ({ total := l.sum, detail := l } : ParsedHoursData) = pd := by
            simpa using hp
          rw [← hpd]
      · rw [if_neg hc] at hp
        rcases hpf : jsParseFloat (trimChars s.toList) with _ | v
        · rw [hpf] at hp; exact Except.noConfusion hp
        · rw [hpf] at hp
          have hpd : ({ total := v, detail := [v] } : ParsedHoursData) = pd := by
            simpa using hp
          rw [← hpd]
          simp
  · intro s vs hc hne hmap
    unfold parseHoursInput
    rw [if_neg hne, if_pos hc, parseTokens_of_parses _ vs hmap]
  · intro s e hc hp
    unfold parseHoursInput at hp
    by_cases ht : trimChars s.toList = []
    · rw [if_pos ht] at hp; exact Except.noConfusion hp
    · rw [if_neg ht, if_pos hc] at hp
      rcases htk : parseTokens (splitOnChar ',' s.toList) with e' | l
      · rw [htk] at hp
        have he : e' = e := (Except.error.injEq _ _).mp hp
        exact he ▸ parseTokens_error_names_token _ e' htk
      · rw [htk] at hp; exact Except.noConfusion hp

theorem hoursParser_spec_witness :
    (trimChars " ".toList = [] ∧ parseHoursInput " " = .ok none) ∧
    (parseHoursInput "4,2" = .ok (some { total := 6, detail := [4, 2] }) ∧
      (6 : ℚ) = ([(4 : ℚ), 2] : List ℚ).sum) :=
  ⟨⟨by decide, hoursParser_spec.1 " " (by decide)⟩,
   by decide,
   hoursParser_spec.2.1 "4,2" { total := 6, detail := [4, 2] } (by decide)⟩

/-! ## C7 (corrected: the spec grammar is sufficient but not necessary —
`parseFloat` also accepts signed numbers, exponents, bare fractional
forms and numeric prefixes with trailing characters) -/

theorem takeWhile_ne_nil_head {p : Char → Bool} {l : List Char}
    (h : (l.takeWhile p).isEmpty = false) : ∃ a t, l = a :: t ∧ p a = true := by
  rcases l with _ | ⟨a, t⟩
  · simp at h
  · by_cases hpa : p a = true
    · exact ⟨a, t, rfl, hpa⟩
    · rw [List.takeWhile_cons, if_neg hpa] at h
      simp at h

theorem parseUnsigned_of_digits_head {cs : List Char}
    (hne : (cs.takeWhile Char.isDigit).isEmpty = false) : parseUnsigned cs ≠ none := by
  unfold parseUnsigned
  rw [if_neg (by simp [hne])]
  rcases hdrop : cs.dropWhile Char.isDigit with _ | ⟨c, rest2⟩
  · simp
  · by_cases hc : c = '.'
    · simp [hc]
    · simp [hc]

theorem specHourToken_parses {cs : List Char} (h : specHourToken cs = true) :
    jsParseFloat cs ≠ none := by
  have hne : (cs.takeWhile Char.isDigit).isEmpty = false := by
    unfold specHourToken at h
    rcases hdrop : cs.dropWhile Char.isDigit with _ | ⟨c, fs⟩ <;> rw [hdrop] at h
    · simpa using h
    · simp only [Bool.and_eq_true] at h
      simpa using h.1.1.2
  obtain ⟨a, t, hcs, ha⟩ := takeWhile_ne_nil_head hne
  subst hcs
  have hplus : ¬a = '+' := by
    intro hq; rw [hq] at ha; exact absurd ha (by decide)
  have hminus : ¬a = '-' := by
    intro hq; rw [hq] at ha; exact absurd ha (by decide)
  simp only [jsParseFloat]
  rw [if_neg hplus, if_neg hminus]
  exact parseUnsigned_of_digits_head hne

theorem splitOnChar_of_no_sep : ∀ {l : List Char}, l.contains ',' = false →
    splitOnChar ',' l = [l]
  | [], _ => rfl
  | c :: cs, h => by
    have h' := h
    simp only [List.contains_cons, Bool.or_eq_false_iff] at h'
    have hcs : splitOnChar ',' cs = [cs] := splitOnChar_of_no_sep h'.2
    have hcne : ¬c = ',' := by
      intro hq
      rw [hq] at h'
      simp at h'
    unfold splitOnChar
    rw [hcs]
    simp [hcne]

theorem parseUnsignedExt_cases (ds : List Char) :
    (isInfinityLit ds = true ∧ parseUnsignedExt ds = some .posInf) ∨
    (isInfinityLit ds = false ∧
      parseUnsignedExt ds = (parseUnsigned ds).map (fun q => JsNum.num q)) := by
  by_cases h : isInfinityLit ds = true
  · exact Or.inl ⟨h, by rw [parseUnsignedExt, if_pos h]⟩
  · refine Or.inr ⟨?_, by rw [parseUnsignedExt, if_neg h]⟩
    revert h
    cases isInfinityLit ds <;> simp

theorem jsParseFloatExt_nan_decomp (cs : List Char) :
    jsParseFloatExt cs ≠ .nan ↔
      ((∃ q : ℚ, jsParseFloat cs = some q) ∨ signedInfinityLit cs = true) := by
  rcases cs with _ | ⟨c, rest⟩
  · refine iff_of_false (by simp [jsParseFloatExt]) ?_
    rintro (⟨q, hq⟩ | hsig)
    · rw [show jsParseFloat [] = none from rfl] at hq
      exact Option.noConfusion hq
    · simp [signedInfinityLit] at hsig
  · by_cases hp : c = '+'
    · subst hp
      rcases parseUnsignedExt_cases rest with ⟨hinf, hext⟩ | ⟨hinf, hext⟩
      · refine iff_of_true ?_ (Or.inr ?_)
        · simp [jsParseFloatExt, hext]
        · simp [signedInfinityLit, hinf]
      · rcases hpu : parseUnsigned rest with _ | q
        · refine iff_of_false ?_ ?_
          · simp [jsParseFloatExt, hext, hpu]
          · rintro (⟨q, hq⟩ | hsig)
            · rw [show jsParseFloat ('+' :: rest) = parseUnsigned rest from by
                simp [jsParseFloat]] at hq
              rw [hpu] at hq
              exact Option.noConfusion hq
            · have hil : isInfinityLit rest = true := by
                simpa [signedInfinityLit] using hsig
              rw [hil] at hinf
              exact Bool.noConfusion hinf
        · refine iff_of_true ?_ (Or.inl ⟨q, ?_⟩)
          · simp [jsParseFloatExt, hext, hpu]
          · simp [jsParseFloat, hpu]
    · by_cases hm : c = '-'
      · subst hm
        rcases parseUnsignedExt_cases rest with ⟨hinf, hext⟩ | ⟨hinf, hext⟩
        · refine iff_of_true ?_ (Or.inr ?_)
          · simp [jsParseFloatExt, hext, jsNegate]
          · simp [signedInfinityLit, hinf]
        · rcases hpu : parseUnsigned rest with _ | q
          · refine iff_of_false ?_ ?_
            · simp [jsParseFloatExt, hext, hpu]
            · rintro (⟨q, hq⟩ | hsig)
              · rw [show jsParseFloat ('-' :: rest) =
                    (parseUnsigned rest).map (fun q => -q) from by simp [jsParseFloat]] at hq
                rw [hpu] at hq
                exact Option.noConfusion hq
              · have hil : isInfinityLit rest = true := by
                  simpa [signedInfinityLit] using hsig
                rw [hil] at hinf
                exact Bool.noConfusion hinf
          · refine iff_of_true ?_ (Or.inl ⟨-q, ?_⟩)
            · simp [jsParseFloatExt, hext, hpu, jsNegate]
            · simp [jsParseFloat, hpu]
      · rcases parseUnsignedExt_cases (c :: rest) with ⟨hinf, hext⟩ | ⟨hinf, hext⟩
        · refine iff_of_true ?_ (Or.inr ?_)
          · simp [jsParseFloatExt, hp, hm, hext]
          · simp [signedInfinityLit, hp, hm, hinf]
        · rcases hpu : parseUnsigned (c :: rest) with _ | q
          · refine iff_of_false ?_ ?_
            · simp [jsParseFloatExt, hp, hm, hext, hpu]
            · rintro (⟨q, hq⟩ | hsig)
              · rw [show jsParseFloat (c :: rest) = parseUnsigned (c :: rest) from by
                  simp [jsParseFloat, hp, hm]] at hq
                rw [hpu] at hq
                exact Option.noConfusion hq
              · have hil : isInfinityLit (c :: rest) = true := by
                  simpa [signedInfinityLit, hp, hm] using hsig
                rw [hil] at hinf
                exact Bool.noConfusion hinf
          · refine iff_of_true ?_ (Or.inl ⟨q, ?_⟩)
            · simp [jsParseFloatExt, hp, hm, hext, hpu]
            · simp [jsParseFloat, hp, hm, hpu]

theorem parseTokensExt_error_has_nan : ∀ (ts : List (List Char)) (e : String),
    parseTokensExt ts = .error e → ∃ x ∈ ts, jsParseFloatExt (trimChars x) = .nan
  | [], e => fun hp => Except.noConfusion hp
  | t :: ts, e => by
    intro hp
    unfold parseTokensExt at hp
    by_cases hn : jsParseFloatExt (trimChars t) = .nan
    · exact ⟨t, List.mem_cons_self t ts, hn⟩
    · rw [if_neg hn] at hp
      rcases hr : parseTokensExt ts with e' | vs
      · rw [hr] at hp
        obtain ⟨x, hx, hnan⟩ := parseTokensExt_error_has_nan ts e' hr
        exact ⟨x, List.mem_cons_of_mem t hx, hnan⟩
      · rw [hr] at hp
        exact Except.noConfusion hp

theorem parseTokensExt_ok_of_all : ∀ (ts : List (List Char)),
    (∀ x ∈ ts, jsParseFloatExt (trimChars x) ≠ .nan) → ∃ l, parseTokensExt ts = .ok l
  | [] => fun _ => ⟨[], rfl⟩
  | t :: ts => by
    intro hall
    obtain ⟨l, hl⟩ := parseTokensExt_ok_of_all ts
      (fun x hx => hall x (List.mem_cons_of_mem t hx))
    refine ⟨jsParseFloatExt (trimChars t) :: l, ?_⟩
    unfold parseTokensExt
    rw [if_neg (hall t (List.mem_cons_self t ts)), hl]

theorem parseTokensExt_all_of_ok : ∀ (ts : List (List Char)) (l : List JsNum),
    parseTokensExt ts = .ok l → ∀ x ∈ ts, jsParseFloatExt (trimChars x) ≠ .nan
  | [], l => by
    intro _ x hx
    exact absurd hx (List.not_mem_nil x)
  | t :: ts, l => by
    intro hp x hx
    unfold parseTokensExt at hp
    by_cases hn : jsParseFloatExt (trimChars t) = .nan
    · rw [if_pos hn] at hp
      exact Except.noConfusion hp
    · rw [if_neg hn] at hp
      rcases hr : parseTokensExt ts with e' | vs
      · rw [hr] at hp
        exact Except.noConfusion hp
      · rcases List.mem_cons.mp hx with h | h
        · rw [h]
          exact hn
        · exact parseTokensExt_all_of_ok ts vs hr x h

theorem specHourToken_parses_ext {cs : List Char} (h : specHourToken cs = true) :
    jsParseFloatExt cs ≠ .nan := by
  obtain ⟨q, hq⟩ := Option.ne_none_iff_exists'.mp (specHourToken_parses h)
  exact (jsParseFloatExt_nan_decomp cs).mpr (Or.inl ⟨q, hq⟩)

/-- C7 counterexample: the inputs `"-5"` and `"Infinity"` lie outside
the spec's hour-string grammar, yet the parser accepts both — parseFloat
reads the sign of `"-5"`, and `"Infinity"` matches its Infinity literal
production with a non-finite value. -/
theorem parser_accepts_nongrammar_input :
    (specHourString "-5" = false ∧
      parseHoursInputExt "-5" = .ok (some { total := .num (-5), detail := [.num (-5)] }) ∧
      parseHoursInput "-5" = .ok (some { total := -5, detail := [-5] })) ∧
    (specHourString "Infinity" = false ∧
      parseHoursInputExt "Infinity" = .ok (some { total := .posInf, detail := [.posInf] })) :=
  ⟨⟨by decide, by decide, by decide⟩, ⟨by decide, by decide⟩⟩

/-- C7 (amended): for every non-empty input, the parser succeeds iff no
examined token (the comma-split pieces, or the whole input when no comma
is present) parses to NaN; a trimmed token is non-NaN exactly when it
begins with an optionally-signed finite decimal literal or an
optionally-signed Infinity literal; every string of the spec grammar
digits["."digits] (","digits["."digits])* is accepted, but the grammar
is not necessary for acceptance. -/
theorem parser_acceptance_iff (s : String) (hne : trimChars s.toList ≠ []) :
    ((∃ pd, parseHoursInputExt s = .ok (some pd)) ↔
      ∀ x ∈ hourTokens s, jsParseFloatExt (trimChars x) ≠ .nan) ∧
    (∀ cs : List Char, jsParseFloatExt cs ≠ .nan ↔
      ((∃ q : ℚ, jsParseFloat cs = some q) ∨ signedInfinityLit cs = true)) ∧
    (specHourString s = true → ∃ pd, parseHoursInputExt s = .ok (some pd)) := by
  have main : (∃ pd, parseHoursInputExt s = .ok (some pd)) ↔
      ∀ x ∈ hourTokens s, jsParseFloatExt (trimChars x) ≠ .nan := by
    by_cases hc : s.toList.contains ',' = true
    · have hform : parseHoursInputExt s =
          match parseTokensExt (splitOnChar ',' s.toList) with
          | .error e => .error e
          | .ok hoursList =>
            .ok (some { total := hoursList.foldl jsAdd (.num 0), detail := hoursList }) := by
        unfold parseHoursInputExt
        rw [if_neg hne, if_pos hc]
      have htok : hourTokens s = splitOnChar ',' s.toList := by
        unfold hourTokens
        rw [if_pos hc]
      rcases htk : parseTokensExt (splitOnChar ',' s.toList) with e | l <;> rw [htk] at hform
      · constructor
        · rintro ⟨pd, hpd⟩
          rw [hform] at hpd
          exact Except.noConfusion hpd
        · intro hall
          obtain ⟨x, hx, hnan⟩ := parseTokensExt_error_has_nan _ e htk
          exact absurd hnan (hall x (htok ▸ hx))
      · constructor
        · intro _ x hx
          exact parseTokensExt_all_of_ok _ l htk x (htok ▸ hx)
        · intro _
          exact ⟨_, hform⟩
    · have htok : hourTokens s = [s.toList] := by
        unfold hourTokens
        rw [if_neg hc]
      by_cases hn : jsParseFloatExt (trimChars s.toList) = .nan
      · have hform : parseHoursInputExt s =
            .error ("無效的時數: " ++ String.mk (trimChars s.toList)) := by
          unfold parseHoursInputExt
          rw [if_neg hne, if_neg hc, if_pos hn]
        refine iff_of_false ?_ ?_
        · rintro ⟨pd, hpd⟩
          rw [hform] at hpd
          exact Except.noConfusion hpd
        · intro hall
          exact hall s.toList (htok ▸ List.mem_singleton.mpr rfl) hn
      · have hform : parseHoursInputExt s =
            .ok (some { total := jsParseFloatExt (trimChars s.toList)
                        detail := [jsParseFloatExt (trimChars s.toList)] }) := by
          unfold parseHoursInputExt
          rw [if_neg hne, if_neg hc, if_neg hn]
        refine iff_of_true ⟨_, hform⟩ ?_
        intro x hx
        rw [htok] at hx
        rw [List.mem_singleton.mp hx]
        exact hn
  refine ⟨main, jsParseFloatExt_nan_decomp, fun hspec => main.mpr ?_⟩
  intro x hx
  unfold hourTokens at hx
  by_cases hc : s.toList.contains ',' = true
  · rw [if_pos hc] at hx
    have hall := List.all_eq_true.mp (by simpa [specHourString] using hspec)
    have hx' := hall x hx
    exact specHourToken_parses_ext (by simpa using hx')
  · rw [if_neg hc] at hx
    have hsplit : splitOnChar ',' s.toList = [s.toList] :=
      splitOnChar_of_no_sep (Bool.not_eq_true _ ▸ hc)
    have hall := List.all_eq_true.mp (by simpa [specHourString] using hspec)
    have hx' := hall s.toList (hsplit ▸ List.mem_singleton.mpr rfl)
    rw [List.mem_singleton.mp hx]
    exact specHourToken_parses_ext (by simpa using hx')

theorem parser_acceptance_iff_witness :
    trimChars "2,3.5".toList ≠ [] ∧ specHourString "2,3.5" = true ∧
      ∃ pd, parseHoursInputExt "2,3.5" = .ok (some pd) :=
  ⟨by decide, by decide,
   (parser_acceptance_iff "2,3.5" (by decide)).2.2 (by decide)⟩

/-! ## C2 -/

theorem dailyRows_filter_eq (f : ℚ → ℚ → CalculationDetail) (rate : ℚ) :
    ∀ (l : List ℚ) (n : ℕ),
      ((List.enumFrom n l).map (fun p =>
        if p.2 > 0 then
          ({ day := p.1 + 1, hours := p.2, pay := (f p.2 rate).pay } : DailyWorkDetail)
        else { day := p.1 + 1, hours := 0, pay := 0 })).filter (fun item => item.hours > 0)
      = ((List.enumFrom n l).filter (fun p => p.2 > 0)).map (fun p =>
          ({ day := p.1 + 1, hours := p.2, pay := (f p.2 rate).pay } : DailyWorkDetail))
  | [], n => rfl
  | a :: l, n => by
    by_cases ha : a > 0
    · simp only [List.enumFrom, List.map_cons, List.filter_cons]
      simp [ha, dailyRows_filter_eq f rate l (n + 1)]
    · simp only [List.enumFrom, List.map_cons, List.filter_cons]
      simp [ha, dailyRows_filter_eq f rate l (n + 1)]

theorem dailyRows_pays_eq (f : ℚ → ℚ → CalculationDetail) (rate : ℚ) :
    ∀ (l : List ℚ) (n : ℕ),
      (((List.enumFrom n l).filter (fun p => p.2 > 0)).map (fun p =>
        ({ day := p.1 + 1, hours := p.2, pay := (f p.2 rate).pay } : DailyWorkDetail))).map
          (fun d => d.pay)
      = (l.filter (fun h => h > 0)).map (fun h => (f h rate).pay)
  | [], n => rfl
  | a :: l, n => by
    by_cases ha : a > 0
    · simp only [List.enumFrom, List.filter_cons]
      simp [ha, dailyRows_pays_eq f rate l (n + 1)]
    · simp only [List.enumFrom, List.filter_cons]
      simp [ha, dailyRows_pays_eq f rate l (n + 1)]

/-- C2: for multi-day parsed input the aggregator applies the bracket
function independently per day, sums the already-cent-rounded per-day
pays without re-rounding, excludes days with hours ≤ 0 from the
breakdown (they contribute zero pay), and replaces the narrative with
one summary line; for a single-day list the bracket function's result on
the total is passed through unchanged; weekday input `"9,9,9,9"` equals
four independent 9-hour applications summed, not one 36-hour
application. -/
theorem processDaily_spec (parsed : ParsedHoursData) (rate : ℚ)
    (f : ℚ → ℚ → CalculationDetail) :
    (parsed.detail.length > 1 →
      processDailyCalculation parsed rate f =
        { pay := ((parsed.detail.filter (fun h => h > 0)).map (fun h => (f h rate).pay)).sum
          details := ["共" ++ toString parsed.detail.length ++ "天，每天分別計算"]
          dailyBreakdown := some ((parsed.detail.enum.filter (fun p => p.2 > 0)).map (fun p =>
            { day := p.1 + 1, hours := p.2, pay := (f p.2 rate).pay })) }) ∧
    (parsed.detail.length = 1 →
      processDailyCalculation parsed rate f = f parsed.total rate) ∧
    parseHoursInput "9,9,9,9" = .ok (some { total := 36, detail := [9, 9, 9, 9] }) ∧
    (processDailyCalculation { total := 36, detail := [9, 9, 9, 9] } 100
        (fun h r => calculateWeekdayOvertime DEFAULT_RATES h r false)).pay
      = 4 * (calculateWeekdayOvertime DEFAULT_RATES 9 100 false).pay ∧
    (processDailyCalculation { total := 36, detail := [9, 9, 9, 9] } 100
        (fun h r => calculateWeekdayOvertime DEFAULT_RATES h r false)).pay
      ≠ (calculateWeekdayOvertime DEFAULT_RATES 36 100 false).pay := by
  refine ⟨?_, ?_, by decide, by decide, by decide⟩
  · intro hlen
    unfold processDailyCalculation
    rw [if_pos hlen]
    simp only [show parsed.detail.enum = List.enumFrom 0 parsed.detail from rfl,
      dailyRows_filter_eq f rate parsed.detail 0, dailyRows_pays_eq f rate parsed.detail 0]
  · intro hlen
    unfold processDailyCalculation
    rw [if_neg (by omega : ¬parsed.detail.length > 1)]

theorem processDaily_spec_witness :
    (([(9 : ℚ), 9, 9, 9] : List ℚ).length > 1 ∧
      processDailyCalculation { total := 36, detail := [9, 9, 9, 9] } 100
          (fun h r => calculateWeekdayOvertime DEFAULT_RATES h r false) =
        { pay := ((([(9 : ℚ), 9, 9, 9] : List ℚ).filter (fun h => h > 0)).map
            (fun h => (calculateWeekdayOvertime DEFAULT_RATES h 100 false).pay)).sum
          details := ["共" ++ toString ([(9 : ℚ), 9, 9, 9] : List ℚ).length ++ "天，每天分別計算"]
          dailyBreakdown := some ((([(9 : ℚ), 9, 9, 9] : List ℚ).enum.filter
            (fun p => p.2 > 0)).map (fun p =>
              { day := p.1 + 1, hours := p.2,
                pay := (calculateWeekdayOvertime DEFAULT_RATES p.2 100 false).pay })) }) ∧
    (([(3 : ℚ)] : List ℚ).length = 1 ∧
      processDailyCalculation { total := 3, detail := [3] } 100
          (fun h r => calculateWeekdayOvertime DEFAULT_RATES h r false) =
        calculateWeekdayOvertime DEFAULT_RATES 3 100 false) :=
  ⟨⟨by decide,
    (processDaily_spec { total := 36, detail := [9, 9, 9, 9] } 100
      (fun h r => calculateWeekdayOvertime DEFAULT_RATES h r false)).1 (by decide)⟩,
   ⟨rfl,
    (processDaily_spec { total := 3, detail := [3] } 100
      (fun h r => calculateWeekdayOvertime DEFAULT_RATES h r false)).2.1 rfl⟩⟩

/-! ## C4 -/

theorem processCategory_cases (raw : String) (hr : ℚ) (f : ℚ → ℚ → CalculationDetail) :
    (∃ e, processCategory raw hr f = .error e) ∨
    (∃ o, processCategory raw hr f = .ok o ∧ (o.isSome ↔ trimChars raw.toList ≠ [])) := by
  unfold processCategory
  by_cases ht : trimChars raw.toList = []
  · right
    refine ⟨none, ?_, by simp [show trimChars raw.data = [] from ht]⟩
    rw [if_pos ht]
  · rw [if_neg ht]
    rcases hp : parseHoursInput raw with e | o
    · exact Or.inl ⟨e, rfl⟩
    · rcases o with _ | parsed
      · exact absurd (parseHoursInput_ok_none hp) ht
      · exact Or.inr ⟨some (processDailyCalculation parsed hr f), rfl,
          by simp [show ¬trimChars raw.data = [] from ht]⟩

/-- C4: with a valid salary, the comprehensive call either fails with a
single error bundling the original parse failure with the valid-format
examples (discarding all partial results), or returns a result whose
totalPay is the cent-rounded sum of the pays of exactly those categories
whose raw input string was non-empty. -/
theorem comprehensive_total_or_error (rates : LaborStandardRates) (salary : ℚ)
    (wd : WorkDataInput) (u : Bool) (hs : 0 < salary) :
    (∃ orig, calculateComprehensive rates salary wd u = .error (orig ++ calcErrorSuffix)) ∨
    (∃ res, calculateComprehensive rates salary wd u = .ok res ∧
      res.totalPay = roundCent (payOf res.weekdayOvertimeCalc + payOf res.restDayWorkCalc +
        payOf res.holidayWorkCalc + payOf res.regularDayOffCalc) ∧
      (res.weekdayOvertimeCalc.isSome ↔ trimChars wd.weekdayOvertime.toList ≠ []) ∧
      (res.restDayWorkCalc.isSome ↔ trimChars wd.restDayWork.toList ≠ []) ∧
      (res.holidayWorkCalc.isSome ↔ trimChars wd.holidayWork.toList ≠ []) ∧
      (res.regularDayOffCalc.isSome ↔ trimChars wd.regularDayOffWork.toList ≠ [])) := by
  simp only [calculateComprehensive]
  rw [if_neg (not_le.mpr hs)]
  rcases processCategory_cases wd.weekdayOvertime (calculateHourlyRate salary u)
      (fun h r => calculateWeekdayOvertime rates h r wd.isEmergency) with ⟨e, he⟩ | ⟨w, hw, hwiff⟩
  · rw [he]
    exact Or.inl ⟨e, rfl⟩
  · rw [hw]
    rcases processCategory_cases wd.restDayWork (calculateHourlyRate salary u)
        (fun h r => calculateRestDayOvertime rates h r) with ⟨e, he⟩ | ⟨rst, hr2, hriff⟩
    · rw [he]
      exact Or.inl ⟨e, rfl⟩
    · rw [hr2]
      rcases processCategory_cases wd.holidayWork (calculateHourlyRate salary u)
          (fun h r => calculateHolidayPay rates h r HolidayType.statutoryHoliday) with
        ⟨e, he⟩ | ⟨hol, hh, hhiff⟩
      · rw [he]
        exact Or.inl ⟨e, rfl⟩
      · rw [hh]
        rcases processCategory_cases wd.regularDayOffWork (calculateHourlyRate salary u)
            (fun h r => calculateHolidayPay rates h r HolidayType.regularDayOff) with
          ⟨e, he⟩ | ⟨reg, hg, hgiff⟩
        · rw [he]
          exact Or.inl ⟨e, rfl⟩
        · rw [hg]
          exact Or.inr ⟨_, rfl, rfl, hwiff, hriff, hhiff, hgiff⟩

theorem comprehensive_total_or_error_witness :
    (0 : ℚ) < 7200 ∧
    ((∃ orig, calculateComprehensive DEFAULT_RATES 7200
        { weekdayOvertime := "3", restDayWork := "", holidayWork := "",
          regularDayOffWork := "", isEmergency := false } true =
          .error (orig ++ calcErrorSuffix)) ∨
      (∃ res, calculateComprehensive DEFAULT_RATES 7200
          { weekdayOvertime := "3", restDayWork := "", holidayWork := "",
            regularDayOffWork := "", isEmergency := false } true = .ok res ∧
        res.totalPay = roundCent (payOf res.weekdayOvertimeCalc + payOf res.restDayWorkCalc +
          payOf res.holidayWorkCalc + payOf res.regularDayOffCalc) ∧
        (res.weekdayOvertimeCalc.isSome ↔ trimChars "3".toList ≠ []) ∧
        (res.restDayWorkCalc.isSome ↔ trimChars "".toList ≠ []) ∧
        (res.holidayWorkCalc.isSome ↔ trimChars "".toList ≠ []) ∧
        (res.regularDayOffCalc.isSome ↔ trimChars "".toList ≠ []))) :=
  ⟨by decide,
   comprehensive_total_or_error DEFAULT_RATES 7200
     { weekdayOvertime := "3", restDayWork := "", holidayWork := "",
       regularDayOffWork := "", isEmergency := false } true (by decide)⟩

/-! ## C10 -/

theorem processCategory_eq_map (raw : String) (hr : ℚ) (f : ℚ → ℚ → CalculationDetail) :
    processCategory raw hr f =
      (categoryParse raw).map
        (Option.map (fun parsed => processDailyCalculation parsed hr f)) := by
  unfold processCategory categoryParse
  by_cases ht : trimChars raw.toList = []
  · rw [if_pos ht, if_pos ht]
    rfl
  · rw [if_neg ht, if_neg ht]
    rcases hp : parseHoursInput raw with e | o
    · rfl
    · rcases o with _ | parsed <;> rfl

/-- C10: two comprehensive calls differing only in the emergency flag
agree on the wage bases and on the rest-day, holiday and regular-day-off
category details (and on error behaviour), and each call's total is the
cent-rounded sum of its own weekday pay plus those shared category pays
— so the flag influences nothing but the weekday-overtime computation. -/
theorem emergency_only_affects_weekday (rates : LaborStandardRates) (salary : ℚ) (u : Bool)
    (w r hd g : String) :
    ((calculateComprehensive rates salary ⟨w, r, hd, g, true⟩ u).map nonWeekdayView =
      (calculateComprehensive rates salary ⟨w, r, hd, g, false⟩ u).map nonWeekdayView) ∧
    (∀ (b : Bool) (x : ComprehensiveResult),
      calculateComprehensive rates salary ⟨w, r, hd, g, b⟩ u = .ok x →
      x.totalPay = roundCent (payOf x.weekdayOvertimeCalc + payOf x.restDayWorkCalc +
        payOf x.holidayWorkCalc + payOf x.regularDayOffCalc)) := by
  constructor
  · simp only [calculateComprehensive]
    by_cases hs : salary ≤ 0
    · rw [if_pos hs, if_pos hs]
    · rw [if_neg hs, if_neg hs]
      simp only [processCategory_eq_map]
      rcases hw : categoryParse w with e | o
      · rfl
      · rcases hr2 : categoryParse r with e | o2
        · rfl
        · rcases hh : categoryParse hd with e | o3
          · rfl
          · rcases hg : categoryParse g with e | o4 <;> rfl
  · intro b x hx
    simp only [calculateComprehensive] at hx
    by_cases hs : salary ≤ 0
    · rw [if_pos hs] at hx
      exact Except.noConfusion hx
    · rw [if_neg hs] at hx
      split at hx
      · exact Except.noConfusion hx
      · split at hx
        · exact Except.noConfusion hx
        · split at hx
          · exact Except.noConfusion hx
          · split at hx
            · exact Except.noConfusion hx
            · injection hx with hx2
              subst hx2
              rfl

theorem emergency_only_affects_weekday_witness :
    calculateComprehensive DEFAULT_RATES 7200 ⟨"3", "", "", "", false⟩ true =
      .ok { hourlyRate := 30, dailyWage := 240,
            weekdayOvertimeCalc := some (calculateWeekdayOvertime DEFAULT_RATES 3 30 false),
            restDayWorkCalc := none, holidayWorkCalc := none, regularDayOffCalc := none,
            totalPay := 130 } ∧
    (130 : ℚ) = roundCent (payOf (some (calculateWeekdayOvertime DEFAULT_RATES 3 30 false)) +
      payOf none + payOf none + payOf none) :=
  ⟨by decide,
   (emergency_only_affects_weekday DEFAULT_RATES 7200 true "3" "" "" "").2 false
     { hourlyRate := 30, dailyWage := 240,
       weekdayOvertimeCalc := some (calculateWeekdayOvertime DEFAULT_RATES 3 30 false),
       restDayWorkCalc := none, holidayWorkCalc := none, regularDayOffCalc := none,
       totalPay := 130 } (by decide)⟩
